import Mathlib

/-!
Shallow embedding of the Lorentz-gas simulation core (`Model` class,
`model.cpp` / `model.h`): lattice geometry, wall reflection, atom
collision, per-tick stepping and streaming statistics.  `qreal`
(double) is modelled by `ℝ`, C `int` by `ℤ`, `QVector` by `List`,
`QPointF` by `ℝ × ℝ`.  C++ integer `%` and `/` are only applied to
nonnegative operands in the modelled traces, where they agree with
`Int.emod` / `Int.ediv`.
-/

namespace Lorentz

/-- Term-level model of the C library function `atan2(y, x)`,
following the C standard's branch structure (signed zeros excepted,
since `ℝ` has none). -/
noncomputable def atan2 (y x : ℝ) : ℝ :=
  if 0 < x then Real.arctan (y / x)
  else if x < 0 then
    (if 0 ≤ y then Real.arctan (y / x) + Real.pi
     else Real.arctan (y / x) - Real.pi)
  else if 0 < y then Real.pi / 2
  else if y < 0 then -(Real.pi / 2)
  else 0

/-- Static data member `Model::MAX_HISTORY = 100000`. -/
def MAX_HISTORY : ℕ := 100000

/-- Static data member `Model::measurePeriod = 20.0`. -/
def measurePeriod : ℝ := 20

/-- State of one `Model` instance: every data member of the C++
class that the integration-and-statistics core reads or writes
(brushes and other rendering-only members are omitted). -/
structure Model where
  width : ℤ
  height : ℤ
  xBegin : ℤ
  yBegin : ℤ
  side : ℤ
  atomR : ℝ
  electronR : ℝ
  speed : ℝ
  num : ℕ
  positions : List (ℝ × ℝ)
  speedDir : List ℝ
  showBins : Bool
  nbins : ℤ
  bin : ℤ
  binwidth : ℝ
  paintTraceOnly : Bool
  timeFull : ℝ
  timeInside : ℝ
  impulseSum : ℝ
  timeInsideAll : List ℝ
  density : List ℝ
  time : List ℝ
  prob : List ℝ
  impulses : List ℝ
  positionsSave : List (ℝ × ℝ)
  speedDirSave : List ℝ

/-- Offset recomputation shared by the constructor and `setDim`:
`xBegin = (width % side) / 2; xBegin = xBegin ? xBegin : side;`
(C++ integer arithmetic; operands are nonnegative in all modelled
traces, where truncating and Euclidean division agree). -/
def beginOf (w sd : ℤ) : ℤ :=
  let b := (w % sd) / 2
  if b = 0 then sd else b

/-- Result of `Model::checkBorders`: the corrected position, the
corrected direction, and the amount the call adds to `impulseSum`
when the model is not in trace-preview mode. -/
structure BorderResult where
  p : ℝ × ℝ
  phi : ℝ
  addImpulse : ℝ

/-- Model of `Model::checkBorders(QPointF& p, qreal& phi)`.  The
four wall tests run in source order (far y, far x, near y, near x);
`x`, `y`, `dx`, `dy` are cached from the incoming position before
any mutation, exactly as in the C++ body. -/
noncomputable def checkBorders (e : ℝ) (w h : ℤ) (p : ℝ × ℝ) (phi : ℝ) :
    BorderResult :=
  let y : ℝ := p.2 - e
  let x : ℝ := p.1 - e
  let dy : ℝ := y - (h : ℝ) + 2 * e
  let dx : ℝ := x - (w : ℝ) + 2 * e
  let r1 : ℝ × ℝ × ℝ :=
    if dy > 0 then ((h : ℝ) - e - dy, 2 * Real.pi - phi, dy) else (p.2, phi, 0)
  let r2 : ℝ × ℝ × ℝ :=
    if dx > 0 then ((w : ℝ) - e - dx, 3 * Real.pi - r1.2.1, r1.2.2 + dx)
    else (p.1, r1.2.1, r1.2.2)
  let r3 : ℝ × ℝ × ℝ :=
    if y < 0 then (e - y, 2 * Real.pi - r2.2.1, r2.2.2 + -y)
    else (r1.1, r2.2.1, r2.2.2)
  let r4 : ℝ × ℝ × ℝ :=
    if x < 0 then (e - x, 3 * Real.pi - r3.2.1, r3.2.2 + -x)
    else (r2.1, r3.2.1, r3.2.2)
  ⟨(r4.1, r3.1), r4.2.1, r4.2.2⟩

/-- Lattice candidate `ceil((x - xBegin)/side) * side + xBegin`. -/
noncomputable def latCeil (xB sd : ℤ) (x : ℝ) : ℝ :=
  ((⌈(x - (xB : ℝ)) / (sd : ℝ)⌉ : ℤ) : ℝ) * (sd : ℝ) + (xB : ℝ)

/-- Lattice candidate `floor((x - xBegin)/side) * side + xBegin`. -/
noncomputable def latFloor (xB sd : ℤ) (x : ℝ) : ℝ :=
  ((⌊(x - (xB : ℝ)) / (sd : ℝ)⌋ : ℤ) : ℝ) * (sd : ℝ) + (xB : ℝ)

/-- Contact test of `Model::checkAtom`:
`qSqrt(sqr(x-xC) + sqr(y-yC)) <= atomR + electronR`. -/
noncomputable def hitsAtom (aR eR x y xC yC : ℝ) : Prop :=
  Real.sqrt ((x - xC) ^ 2 + (y - yC) ^ 2) ≤ aR + eR

noncomputable instance (aR eR x y xC yC : ℝ) :
    Decidable (hitsAtom aR eR x y xC yC) := by
  unfold hitsAtom; infer_instance

/-- Candidate-selection block of `Model::checkAtom`: the four
ceil/floor candidates are tested in source order
(ceil/ceil, ceil/floor, floor/floor, floor/ceil), the last match
overwriting `(xC, yC)`; the initial value is `(1, 1)` with
`act = false`. -/
noncomputable def selectAtom (xB yB sd : ℤ) (aR eR : ℝ) (x y : ℝ) :
    ℝ × ℝ × Bool :=
  let xCc := latCeil xB sd x
  let xCf := latFloor xB sd x
  let yCc := latCeil yB sd y
  let yCf := latFloor yB sd y
  let s0 : ℝ × ℝ × Bool := (1, 1, false)
  let s1 := if hitsAtom aR eR x y xCc yCc then (xCc, yCc, true) else s0
  let s2 := if hitsAtom aR eR x y xCc yCf then (xCc, yCf, true) else s1
  let s3 := if hitsAtom aR eR x y xCf yCf then (xCf, yCf, true) else s2
  let s4 := if hitsAtom aR eR x y xCf yCc then (xCf, yCc, true) else s3
  s4

/-- Discriminant `D` of the segment/circle quadratic in
`Model::checkAtom`. -/
def discrim (xC yC x0 y0 dx dy R : ℝ) : ℝ :=
  (2 * ((x0 - xC) * dx + (y0 - yC) * dy)) ^ 2 -
    4 * (dx ^ 2 + dy ^ 2) * ((xC - x0) ^ 2 + (yC - y0) ^ 2 - R ^ 2)

/-- Root `t` selected by `Model::checkAtom`:
`t = (2*((xC-x0)*dx + (yC-y0)*dy) - sqrt(D)) / (2*(dx² + dy²))`. -/
noncomputable def crossT (xC yC x0 y0 dx dy R : ℝ) : ℝ :=
  (2 * ((xC - x0) * dx + (yC - y0) * dy) -
      Real.sqrt (discrim xC yC x0 y0 dx dy R)) /
    (2 * (dx ^ 2 + dy ^ 2))

/-- Result of `Model::checkAtom`: corrected position and direction. -/
structure AtomResult where
  p : ℝ × ℝ
  phi : ℝ

/-- Model of `Model::checkAtom(QPointF& p, qreal& phi, QPointF pOld)`.
When a candidate matches, the direction is reflected using the normal
angle `beta = atan2(y - yC, x - xC)` taken at the incoming (already
wall-corrected) end position `p`, the crossing point of the segment
`[pOld, p]` with the circle of radius `atomR + electronR` is computed
from the selected quadratic root `t`, and the remaining distance
`(1 - t) * l` is re-applied along the new direction. -/
noncomputable def checkAtom (xB yB sd : ℤ) (aR eR : ℝ) (p : ℝ × ℝ)
    (phi : ℝ) (pOld : ℝ × ℝ) : AtomResult :=
  let x := p.1
  let y := p.2
  let sel := selectAtom xB yB sd aR eR x y
  if sel.2.2 = true then
    let xC := sel.1
    let yC := sel.2.1
    let beta := atan2 (y - yC) (x - xC)
    let phi2 := 2 * beta - phi - Real.pi
    let R := aR + eR
    let x0 := pOld.1
    let y0 := pOld.2
    let dx := x - x0
    let dy := y - y0
    let l := Real.sqrt (dx ^ 2 + dy ^ 2)
    let t := crossT xC yC x0 y0 dx dy R
    let xcr := x0 + t * dx
    let ycr := y0 + t * dy
    ⟨(xcr + (1 - t) * l * Real.cos phi2, ycr + (1 - t) * l * Real.sin phi2),
      phi2⟩
  else ⟨p, phi⟩

/-- Bin containment test used by `Model::step`:
`x >= b*binwidth && x < (b+1)*binwidth`. -/
def inBin (bw : ℝ) (b : ℤ) (x : ℝ) : Prop :=
  (b : ℝ) * bw ≤ x ∧ x < ((b : ℝ) + 1) * bw

noncomputable instance (bw : ℝ) (b : ℤ) (x : ℝ) : Decidable (inBin bw b x) := by
  unfold inBin; infer_instance

/-- Accumulator threaded through the per-particle loop of
`Model::step`: particles processed so far, plus the members
`timeInside`, `timeInsideAll` and `impulseSum` the loop mutates. -/
structure LoopAcc where
  parts : List ((ℝ × ℝ) × ℝ)
  timeInside : ℝ
  timeInsideAll : List ℝ
  impulseSum : ℝ

/-- Position/direction pipeline of one iteration of the loop in
`Model::step`: candidate position `curP + s*(cos phi, sin phi)`,
then `checkBorders`, then `checkAtom`. -/
noncomputable def moveParticle (e : ℝ) (w h xB yB sd : ℤ) (aR : ℝ)
    (s : ℝ) (P : (ℝ × ℝ) × ℝ) : AtomResult × ℝ :=
  let curP := P.1
  let phi := P.2
  let newP0 : ℝ × ℝ := (curP.1 + Real.cos phi * s, curP.2 + Real.sin phi * s)
  let br := checkBorders e w h newP0 phi
  let ar := checkAtom xB yB sd aR e br.p br.phi curP
  (ar, br.addImpulse)

/-- Per-bin accumulation loop of `Model::step`:
`for (b = 0; b < nbins; ++b) if (contained in bin b) timeInsideAll[b] += g;`
modelled as an index-carrying recursion over the accumulator vector
(whose length equals `nbins` in every reachable state); `b` is the
index of the head. -/
noncomputable def tiaUpdate (bw g cx nx : ℝ) : List ℝ → ℕ → List ℝ
  | [], _ => []
  | v :: vs, b =>
    (if inBin bw (b : ℤ) cx ∧ inBin bw (b : ℤ) nx then v + g else v) ::
      tiaUpdate bw g cx nx vs (b + 1)

/-- Body of the per-particle loop of `Model::step` for particle `P`
(one `(position, direction)` pair), acting on the loop accumulator. -/
noncomputable def loopBody (e : ℝ) (w h xB yB sd : ℤ) (aR : ℝ)
    (trace : Bool) (bin : ℤ) (bw : ℝ) (n : ℕ) (s : ℝ)
    (acc : LoopAcc) (P : (ℝ × ℝ) × ℝ) : LoopAcc :=
  let curP := P.1
  let mv := moveParticle e w h xB yB sd aR s P
  let newP := mv.1.p
  let impulseSum' := if trace then acc.impulseSum else acc.impulseSum + mv.2
  let timeInside' :=
    if trace then acc.timeInside
    else if inBin bw bin curP.1 ∧ inBin bw bin newP.1 then
      acc.timeInside + s / (n : ℝ)
    else acc.timeInside
  let tia' :=
    if trace then acc.timeInsideAll
    else tiaUpdate bw (s / (n : ℝ)) curP.1 newP.1 acc.timeInsideAll 0
  ⟨acc.parts ++ [(mv.1.p, mv.1.phi)], timeInside', tia', impulseSum'⟩

/-- Sampling condition of `Model::step`:
`(time.empty() || time.back() + measurePeriod <= timeFull) && time.size() < MAX_HISTORY`,
evaluated after `timeFull` has been advanced. -/
def appendCond (timeSeries : List ℝ) (tF : ℝ) : Prop :=
  (timeSeries = [] ∨ timeSeries.getLast?.getD 0 + measurePeriod ≤ tF) ∧
    timeSeries.length < MAX_HISTORY

noncomputable instance (ts : List ℝ) (tF : ℝ) : Decidable (appendCond ts tF) := by
  unfold appendCond; infer_instance

/-- Step length `s = speed * elapsed / 1000` of `Model::step`. -/
noncomputable def stepS (elapsed : ℤ) (m : Model) : ℝ :=
  m.speed * (elapsed : ℝ) / 1000

/-- Loop accumulator produced by the per-particle loop of
`Model::step`: a left fold of `loopBody` over the paired
`positions`/`speedDir` vectors (the C++ loop runs on indices
`0 .. num-1`; in every reachable state `num` equals both lengths). -/
noncomputable def stepAcc (elapsed : ℤ) (m : Model) : LoopAcc :=
  (m.positions.zip m.speedDir).foldl
    (loopBody m.electronR m.width m.height m.xBegin m.yBegin m.side m.atomR
      m.paintTraceOnly m.bin m.binwidth m.num (stepS elapsed m))
    ⟨[], m.timeInside, m.timeInsideAll, m.impulseSum⟩

/-- Value of `timeFull` after the `timeFull += s` line of
`Model::step` (skipped in trace-preview mode). -/
noncomputable def newTimeFull (elapsed : ℤ) (m : Model) : ℝ :=
  if m.paintTraceOnly then m.timeFull else m.timeFull + stepS elapsed m

/-- Model of `Model::step(int elapsed)`.  The per-particle loop runs
first; afterwards `timeFull` advances (outside trace-preview mode)
and, when the sampling condition holds, one
`(time, prob, impulses, density)` sample is appended, `density`
being recomputed from `timeInsideAll` and renormalized. -/
noncomputable def step (elapsed : ℤ) (m : Model) : Model :=
  let acc := stepAcc elapsed m
  let timeFull' := newTimeFull elapsed m
  if appendCond m.time timeFull' then
    let density1 := acc.timeInsideAll.map fun v => v / timeFull'
    let psum := density1.sum
    { m with
      positions := acc.parts.map Prod.fst
      speedDir := acc.parts.map Prod.snd
      timeInside := acc.timeInside
      timeInsideAll := acc.timeInsideAll
      impulseSum := acc.impulseSum
      timeFull := timeFull'
      time := m.time ++ [timeFull' / 100]
      prob := m.prob ++ [acc.timeInside / timeFull']
      impulses := m.impulses ++ [acc.impulseSum]
      density := density1.map fun v => v / psum }
  else
    { m with
      positions := acc.parts.map Prod.fst
      speedDir := acc.parts.map Prod.snd
      timeInside := acc.timeInside
      timeInsideAll := acc.timeInsideAll
      impulseSum := acc.impulseSum
      timeFull := timeFull' }

/-- Model of `Model::clear()`. -/
def clear (m : Model) : Model :=
  { m with
    time := []
    prob := []
    impulses := []
    density := List.replicate m.nbins.toNat 0
    timeInsideAll := List.replicate m.nbins.toNat 0
    timeFull := 0
    timeInside := 0
    impulseSum := 0 }

/-- Model of the constructor `Model::Model()`.  `width`, `height`,
`nbins`, `binwidth` and `showBins` are read before ever being
written (the C++ leaves them uninitialized until `setDim` /
`setBinsNumber` / `setShowBins` run), so they enter as arbitrary
junk parameters; everything the constructor does assign is assigned
here, ending with the `clear()` call. -/
def init (w h nb : ℤ) (bw : ℝ) (sb : Bool) : Model :=
  clear
    { width := w, height := h
      xBegin := beginOf w 25, yBegin := beginOf h 25
      side := 25, atomR := 5, electronR := 2, speed := 100
      num := 0, positions := [], speedDir := []
      showBins := sb, nbins := nb, bin := 0, binwidth := bw
      paintTraceOnly := false
      timeFull := 0, timeInside := 0, impulseSum := 0
      timeInsideAll := [], density := []
      time := [], prob := [], impulses := []
      positionsSave := [], speedDirSave := [] }

/-- Model of `Model::add(int x, int y, qreal angle)`. -/
def add (x y : ℤ) (angle : ℝ) (m : Model) : Model :=
  { m with
    positions := m.positions ++ [((x : ℝ), (y : ℝ))]
    speedDir := m.speedDir ++ [angle]
    num := m.num + 1 }

/-- Model of `Model::setDim(int w, int h)`. -/
def setDim (w h : ℤ) (m : Model) : Model :=
  { m with
    width := w, height := h
    xBegin := beginOf w m.side, yBegin := beginOf h m.side }

/-- Model of `Model::setSide(int val)`. -/
def setSide (v : ℤ) (m : Model) : Model := { m with side := v }

/-- Model of `Model::setAtomR(qreal val)`. -/
def setAtomR (v : ℝ) (m : Model) : Model := { m with atomR := v }

/-- Model of `Model::setElectronR(qreal val)`. -/
def setElectronR (v : ℝ) (m : Model) : Model := { m with electronR := v }

/-- Model of `Model::setSpeed(qreal val)`. -/
def setSpeed (v : ℝ) (m : Model) : Model := { m with speed := v }

/-- Model of `Model::setShowBins(bool val)`. -/
def setShowBins (v : Bool) (m : Model) : Model := { m with showBins := v }

/-- Model of `Model::setBinsNumber(int num)` (also resizes the
per-bin accumulator and density vectors). -/
noncomputable def setBinsNumber (n : ℤ) (m : Model) : Model :=
  { m with
    nbins := n
    binwidth := (m.width : ℝ) / (n : ℝ)
    density := List.replicate n.toNat 0
    timeInsideAll := List.replicate n.toNat 0 }

/-- Model of `Model::setBinIndex(int idx)`. -/
def setBinIndex (b : ℤ) (m : Model) : Model := { m with bin := b }

/-- Model of `Model::setPaintTraceOnly(bool set)`. -/
def setPaintTraceOnly (v : Bool) (m : Model) : Model :=
  { m with paintTraceOnly := v }

/-- Model of `Model::save()`. -/
def save (m : Model) : Model :=
  { m with positionsSave := m.positions, speedDirSave := m.speedDir }

/-- Model of `Model::load()`. -/
def load (m : Model) : Model :=
  { m with positions := m.positionsSave, speedDir := m.speedDirSave }

/-- Model of one grow iteration of `Model::setNumber(int newNum)`:
the retry loop ends with some in-box integer position (a rejected
overlap is kept after the retry budget), and the direction is
`(2*M_PI/360) * angle` for an integer `angle` in `[0, 360)`. -/
noncomputable def growOne (x y k : ℤ) (m : Model) : Model :=
  { m with
    positions := m.positions ++ [((x : ℝ), (y : ℝ))]
    speedDir := m.speedDir ++ [2 * Real.pi / 360 * (k : ℝ)]
    num := m.num + 1 }

/-- Model of one shrink iteration of `Model::setNumber(int newNum)`. -/
def shrinkOne (m : Model) : Model :=
  { m with
    positions := m.positions.dropLast
    speedDir := m.speedDir.dropLast
    num := m.num - 1 }

/-- States reachable through the public interface: construction
followed by any sequence of configuration calls, `add`, `setNumber`
iterations, `clear`, and `step`.  `setSpeed` is restricted to
nonnegative values (the UI speed spin box has minimum 0.1) and
`step` to nonnegative `elapsed` (it receives elapsed timer
milliseconds). -/
inductive Reachable : Model → Prop
  | init (w h nb : ℤ) (bw : ℝ) (sb : Bool) : Reachable (init w h nb bw sb)
  | setDim (w h : ℤ) {m : Model} : Reachable m → Reachable (setDim w h m)
  | setSide (v : ℤ) {m : Model} : Reachable m → Reachable (setSide v m)
  | setAtomR (v : ℝ) {m : Model} : Reachable m → Reachable (setAtomR v m)
  | setElectronR (v : ℝ) {m : Model} :
      Reachable m → Reachable (setElectronR v m)
  | setSpeed (v : ℝ) (hv : 0 ≤ v) {m : Model} :
      Reachable m → Reachable (setSpeed v m)
  | setShowBins (v : Bool) {m : Model} :
      Reachable m → Reachable (setShowBins v m)
  | setBinsNumber (n : ℤ) {m : Model} :
      Reachable m → Reachable (setBinsNumber n m)
  | setBinIndex (b : ℤ) {m : Model} :
      Reachable m → Reachable (setBinIndex b m)
  | setPaintTraceOnly (v : Bool) {m : Model} :
      Reachable m → Reachable (setPaintTraceOnly v m)
  | add (x y : ℤ) (angle : ℝ) {m : Model} :
      Reachable m → Reachable (add x y angle m)
  | growOne (x y k : ℤ) {m : Model} : Reachable m → Reachable (growOne x y k m)
  | shrinkOne {m : Model} (hn : 0 < m.num) :
      Reachable m → Reachable (shrinkOne m)
  | clear {m : Model} : Reachable m → Reachable (clear m)
  | step (elapsed : ℤ) (he : 0 ≤ elapsed) {m : Model} :
      Reachable m → Reachable (step elapsed m)

/-- Well-formedness: `num` equals the lengths of the parallel
particle vectors (every reachable state satisfies it). -/
def WF (m : Model) : Prop :=
  m.positions.length = m.num ∧ m.speedDir.length = m.num

/-- Contact test unfolded to a polynomial inequality. -/
theorem hitsAtom_iff (aR eR x y xC yC : ℝ) :
    hitsAtom aR eR x y xC yC ↔
      0 ≤ aR + eR ∧ (x - xC) ^ 2 + (y - yC) ^ 2 ≤ (aR + eR) ^ 2 := by
  unfold hitsAtom
  exact Real.sqrt_le_iff

/-- Evaluation rule for `latCeil` at a point whose cell index is the
integer `k`. -/
theorem latCeil_eq (xB sd : ℤ) (x : ℝ) (k : ℤ)
    (h1 : (k : ℝ) - 1 < (x - (xB : ℝ)) / (sd : ℝ))
    (h2 : (x - (xB : ℝ)) / (sd : ℝ) ≤ (k : ℝ)) :
    latCeil xB sd x = (k : ℝ) * (sd : ℝ) + (xB : ℝ) := by
  unfold latCeil
  rw [show (⌈(x - (xB : ℝ)) / (sd : ℝ)⌉ : ℤ) = k by
    rw [Int.ceil_eq_iff]
    exact ⟨by exact_mod_cast h1, by exact_mod_cast h2⟩]

/-- Evaluation rule for `latFloor` at a point whose cell index is
the integer `k`. -/
theorem latFloor_eq (xB sd : ℤ) (x : ℝ) (k : ℤ)
    (h1 : (k : ℝ) ≤ (x - (xB : ℝ)) / (sd : ℝ))
    (h2 : (x - (xB : ℝ)) / (sd : ℝ) < (k : ℝ) + 1) :
    latFloor xB sd x = (k : ℝ) * (sd : ℝ) + (xB : ℝ) := by
  unfold latFloor
  rw [show (⌊(x - (xB : ℝ)) / (sd : ℝ)⌋ : ℤ) = k by
    rw [Int.floor_eq_iff]
    exact ⟨by exact_mod_cast h1, by exact_mod_cast h2⟩]

section LoopLemmas

variable (e : ℝ) (w h xB yB sd : ℤ) (aR : ℝ) (trace : Bool) (bin : ℤ)
  (bw : ℝ) (n : ℕ) (s : ℝ)

/-- The particle loop appends, in order, the `checkBorders`-then-
`checkAtom` image of every particle. -/
theorem loop_parts (l : List ((ℝ × ℝ) × ℝ)) :
    ∀ acc : LoopAcc,
      (l.foldl (loopBody e w h xB yB sd aR trace bin bw n s) acc).parts =
        acc.parts ++ l.map fun P =>
          ((moveParticle e w h xB yB sd aR s P).1.p,
            (moveParticle e w h xB yB sd aR s P).1.phi) := by
  induction l with
  | nil => intro acc; simp
  | cons P l ih =>
    intro acc
    rw [List.foldl_cons, ih]
    simp [loopBody]

/-- In trace-preview mode the particle loop leaves every statistics
accumulator untouched. -/
theorem loop_trace (l : List ((ℝ × ℝ) × ℝ)) :
    ∀ acc : LoopAcc,
      (l.foldl (loopBody e w h xB yB sd aR true bin bw n s) acc).timeInside =
          acc.timeInside ∧
        (l.foldl (loopBody e w h xB yB sd aR true bin bw n s) acc).timeInsideAll =
          acc.timeInsideAll ∧
        (l.foldl (loopBody e w h xB yB sd aR true bin bw n s) acc).impulseSum =
          acc.impulseSum := by
  induction l with
  | nil => intro acc; exact ⟨rfl, rfl, rfl⟩
  | cons P l ih =>
    intro acc
    rw [List.foldl_cons]
    rcases ih (loopBody e w h xB yB sd aR true bin bw n s acc P) with
      ⟨h1, h2, h3⟩
    exact ⟨h1, h2, h3⟩

/-- Monotone bounds on the monitored-bin accumulator over the
particle loop: it never decreases and gains at most `s/n` per
particle. -/
theorem loop_timeInside_bounds (hsn : 0 ≤ s / (n : ℝ))
    (l : List ((ℝ × ℝ) × ℝ)) :
    ∀ acc : LoopAcc,
      acc.timeInside ≤
          (l.foldl (loopBody e w h xB yB sd aR trace bin bw n s) acc).timeInside ∧
        (l.foldl (loopBody e w h xB yB sd aR trace bin bw n s) acc).timeInside ≤
          acc.timeInside + l.length * (s / (n : ℝ)) := by
  induction l with
  | nil => intro acc; simp
  | cons P l ih =>
    intro acc
    rw [List.foldl_cons]
    rcases ih (loopBody e w h xB yB sd aR trace bin bw n s acc P) with ⟨h1, h2⟩
    have hb : (loopBody e w h xB yB sd aR trace bin bw n s acc P).timeInside =
          acc.timeInside ∨
        (loopBody e w h xB yB sd aR trace bin bw n s acc P).timeInside =
          acc.timeInside + s / (n : ℝ) := by
      simp only [loopBody]
      rcases trace with _ | _
      · simp only [Bool.false_eq_true, if_false]
        split
        · right; rfl
        · left; rfl
      · left; rfl
    have hlen : (((P :: l).length : ℕ) : ℝ) = ((l.length : ℕ) : ℝ) + 1 := by
      push_cast [List.length_cons]
      ring
    have hexp : (((l.length : ℕ) : ℝ) + 1) * (s / (n : ℝ)) =
        ((l.length : ℕ) : ℝ) * (s / (n : ℝ)) + s / (n : ℝ) := by ring
    rcases hb with hb | hb <;>
      rw [hb] at h1 h2 <;>
      rw [hlen] <;>
      exact ⟨by linarith, by linarith⟩

end LoopLemmas

/-- Positions stored by `step`: the wall-then-atom pipeline image of
every particle, in order. -/
theorem step_positions (elapsed : ℤ) (m : Model) :
    (step elapsed m).positions =
      (m.positions.zip m.speedDir).map fun P =>
        (moveParticle m.electronR m.width m.height m.xBegin m.yBegin m.side
            m.atomR (stepS elapsed m) P).1.p := by
  unfold step
  dsimp only
  split <;>
    simp [stepAcc, loop_parts, List.map_map, Function.comp]

/-- Directions stored by `step`. -/
theorem step_speedDir (elapsed : ℤ) (m : Model) :
    (step elapsed m).speedDir =
      (m.positions.zip m.speedDir).map fun P =>
        (moveParticle m.electronR m.width m.height m.xBegin m.yBegin m.side
            m.atomR (stepS elapsed m) P).1.phi := by
  unfold step
  dsimp only
  split <;>
    simp [stepAcc, loop_parts, List.map_map, Function.comp]

/-- Fields of the model that `step` never changes. -/
theorem step_frame (elapsed : ℤ) (m : Model) :
    (step elapsed m).width = m.width ∧
      (step elapsed m).height = m.height ∧
      (step elapsed m).num = m.num ∧
      (step elapsed m).speed = m.speed ∧
      (step elapsed m).paintTraceOnly = m.paintTraceOnly := by
  unfold step
  dsimp only
  split <;> exact ⟨rfl, rfl, rfl, rfl, rfl⟩

/-- Scalar statistics fields after `step`. -/
theorem step_stats (elapsed : ℤ) (m : Model) :
    (step elapsed m).timeFull = newTimeFull elapsed m ∧
      (step elapsed m).timeInside = (stepAcc elapsed m).timeInside ∧
      (step elapsed m).impulseSum = (stepAcc elapsed m).impulseSum ∧
      (step elapsed m).timeInsideAll = (stepAcc elapsed m).timeInsideAll := by
  unfold step
  dsimp only
  split <;> exact ⟨rfl, rfl, rfl, rfl⟩

/-- Series updates of `step` when the sampling condition holds. -/
theorem step_series_app (elapsed : ℤ) (m : Model)
    (hc : appendCond m.time (newTimeFull elapsed m)) :
    (step elapsed m).time = m.time ++ [newTimeFull elapsed m / 100] ∧
      (step elapsed m).prob =
        m.prob ++ [(stepAcc elapsed m).timeInside / newTimeFull elapsed m] ∧
      (step elapsed m).impulses =
        m.impulses ++ [(stepAcc elapsed m).impulseSum] := by
  unfold step
  dsimp only
  rw [if_pos hc]
  exact ⟨rfl, rfl, rfl⟩

/-- Structural invariant of every reachable state: the particle
vectors are well-formed, the configured speed is nonnegative, and
the monitored-bin residence accumulator stays between `0` and the
total simulated time. -/
theorem reachable_inv {m : Model} (hm : Reachable m) :
    WF m ∧ 0 ≤ m.speed ∧ 0 ≤ m.timeInside ∧ m.timeInside ≤ m.timeFull := by
  induction hm with
  | init w h nb bw sb =>
    exact ⟨⟨rfl, rfl⟩, by norm_num [init, clear], le_refl _, le_refl _⟩
  | @setDim w h m a ih => exact ih
  | @setSide v m a ih => exact ih
  | @setAtomR v m a ih => exact ih
  | @setElectronR v m a ih => exact ih
  | @setSpeed v hv m a ih => exact ⟨ih.1, hv, ih.2.2⟩
  | @setShowBins v m a ih => exact ih
  | @setBinsNumber n m a ih => exact ih
  | @setBinIndex b m a ih => exact ih
  | @setPaintTraceOnly v m a ih => exact ih
  | @add x y angle m a ih =>
    obtain ⟨⟨h1, h2⟩, hrest⟩ := ih
    exact ⟨⟨by simp [add, h1], by simp [add, h2]⟩, hrest⟩
  | @growOne x y k m a ih =>
    obtain ⟨⟨h1, h2⟩, hrest⟩ := ih
    exact ⟨⟨by simp [growOne, h1], by simp [growOne, h2]⟩, hrest⟩
  | @shrinkOne m hn a ih =>
    obtain ⟨⟨h1, h2⟩, hrest⟩ := ih
    exact ⟨⟨by simp [shrinkOne, h1], by simp [shrinkOne, h2]⟩, hrest⟩
  | @clear m a ih => exact ⟨ih.1, ih.2.1, le_refl _, le_refl _⟩
  | @step elapsed he m a ih =>
    obtain ⟨⟨h1, h2⟩, hs, h3, h4⟩ := ih
    have hel : (0 : ℝ) ≤ (elapsed : ℝ) := by exact_mod_cast he
    have hsn : 0 ≤ stepS elapsed m :=
      div_nonneg (mul_nonneg hs hel) (by norm_num)
    have hdiv : 0 ≤ stepS elapsed m / (m.num : ℝ) :=
      div_nonneg hsn (Nat.cast_nonneg _)
    have hlen : (m.positions.zip m.speedDir).length = m.num := by
      rw [List.length_zip, h1, h2, min_self]
    have hb := loop_timeInside_bounds m.electronR m.width m.height m.xBegin
      m.yBegin m.side m.atomR m.paintTraceOnly m.bin m.binwidth m.num
      (stepS elapsed m) hdiv (m.positions.zip m.speedDir)
      ⟨[], m.timeInside, m.timeInsideAll, m.impulseSum⟩
    have hb1 : m.timeInside ≤ (stepAcc elapsed m).timeInside := hb.1
    have hb2 : (stepAcc elapsed m).timeInside ≤
        m.timeInside +
          ((m.positions.zip m.speedDir).length : ℝ) *
            (stepS elapsed m / (m.num : ℝ)) := hb.2
    have hpos := step_positions elapsed m
    have hdir := step_speedDir elapsed m
    have hfr := step_frame elapsed m
    have hst := step_stats elapsed m
    have hnum : (step elapsed m).num = m.num := hfr.2.2.1
    have htotal : (stepAcc elapsed m).timeInside ≤ m.timeInside + stepS elapsed m := by
      rcases Nat.eq_zero_or_pos m.num with hz | hp
      · rw [hlen, hz] at hb2
        norm_num at hb2
        linarith
      · have hne : ((m.num : ℕ) : ℝ) ≠ 0 := by
          exact_mod_cast Nat.pos_iff_ne_zero.mp hp
        rw [hlen] at hb2
        have : ((m.num : ℕ) : ℝ) * (stepS elapsed m / (m.num : ℝ)) =
            stepS elapsed m := by
          field_simp
        linarith [hb2, this]
    refine ⟨⟨?_, ?_⟩, ?_, ?_, ?_⟩
    · rw [hpos, List.length_map, hlen, hnum]
    · rw [hdir, List.length_map, hlen, hnum]
    · rw [hfr.2.2.2.1]; exact hs
    · rw [hst.2.1]; linarith
    · rw [hst.2.1, hst.1]
      by_cases htr : m.paintTraceOnly = true
      · have hloop := loop_trace m.electronR m.width m.height m.xBegin m.yBegin
          m.side m.atomR m.bin m.binwidth m.num (stepS elapsed m)
          (m.positions.zip m.speedDir)
          ⟨[], m.timeInside, m.timeInsideAll, m.impulseSum⟩
        have heq : (stepAcc elapsed m).timeInside = m.timeInside := by
          unfold stepAcc
          rw [htr]
          exact hloop.1
        rw [heq]
        unfold newTimeFull
        rw [htr, if_pos rfl]
        exact h4
      · unfold newTimeFull
        rw [if_neg htr]
        linarith

/-- Series updates of `step` when the sampling condition fails. -/
theorem step_series_skip (elapsed : ℤ) (m : Model)
    (hc : ¬ appendCond m.time (newTimeFull elapsed m)) :
    (step elapsed m).time = m.time ∧
      (step elapsed m).prob = m.prob ∧
      (step elapsed m).impulses = m.impulses ∧
      (step elapsed m).density = m.density := by
  unfold step
  dsimp only
  rw [if_neg hc]
  exact ⟨rfl, rfl, rfl, rfl⟩

/-- When the selection block reports a match, the matched center
satisfies the contact test. -/
theorem selectAtom_hit (xB yB sd : ℤ) (aR eR x y : ℝ)
    (hact : (selectAtom xB yB sd aR eR x y).2.2 = true) :
    hitsAtom aR eR x y (selectAtom xB yB sd aR eR x y).1
      (selectAtom xB yB sd aR eR x y).2.1 := by
  unfold selectAtom at hact ⊢
  dsimp only at hact ⊢
  split_ifs at hact ⊢ with h1 h2 h3 h4 <;>
    dsimp only at hact ⊢ <;>
    assumption

/-- Outside trace-preview mode the particle loop adds every
particle's wall-overshoot total to the impulse accumulator. -/
theorem loop_impulse (e : ℝ) (w h xB yB sd : ℤ) (aR : ℝ) (bin : ℤ)
    (bw : ℝ) (n : ℕ) (s : ℝ) (l : List ((ℝ × ℝ) × ℝ)) :
    ∀ acc : LoopAcc,
      (l.foldl (loopBody e w h xB yB sd aR false bin bw n s) acc).impulseSum =
        acc.impulseSum +
          (l.map fun P => (moveParticle e w h xB yB sd aR s P).2).sum := by
  induction l with
  | nil => intro acc; simp
  | cons P l ih =>
    intro acc
    rw [List.foldl_cons, ih]
    simp [loopBody]
    ring

/-- Claim C9: `clear()` empties the time, probability and impulse
series, zeroes `timeFull`, `timeInside`, `impulseSum` and the
per-bin residence accumulators, and leaves every particle's position
and direction, the particle count, and all configuration parameters
(box dimensions, `side`, `atomR`, `electronR`, `speed`, `nbins`,
`bin`, `binwidth`) unchanged. -/
theorem clear_resets_stats_only (m : Model) :
    (clear m).time = [] ∧ (clear m).prob = [] ∧ (clear m).impulses = [] ∧
      (clear m).timeFull = 0 ∧ (clear m).timeInside = 0 ∧
      (clear m).impulseSum = 0 ∧
      (∀ v ∈ (clear m).timeInsideAll, v = 0) ∧
      (clear m).positions = m.positions ∧ (clear m).speedDir = m.speedDir ∧
      (clear m).num = m.num ∧ (clear m).width = m.width ∧
      (clear m).height = m.height ∧ (clear m).side = m.side ∧
      (clear m).atomR = m.atomR ∧ (clear m).electronR = m.electronR ∧
      (clear m).speed = m.speed ∧ (clear m).nbins = m.nbins ∧
      (clear m).bin = m.bin ∧ (clear m).binwidth = m.binwidth := by
  refine ⟨rfl, rfl, rfl, rfl, rfl, rfl, ?_, rfl, rfl, rfl, rfl, rfl, rfl,
    rfl, rfl, rfl, rfl, rfl, rfl⟩
  intro v hv
  exact List.eq_of_mem_replicate hv

/-- Witness for C9 at a concrete state. -/
theorem clear_resets_stats_only_witness :
    (clear (init 400 400 2 100 false)).time = [] ∧
      (clear (init 400 400 2 100 false)).num = (init 400 400 2 100 false).num :=
  ⟨(clear_resets_stats_only (init 400 400 2 100 false)).1,
    (clear_resets_stats_only (init 400 400 2 100 false)).2.2.2.2.2.2.2.2.2.1⟩

/-- Claim C10: in every reachable state the time, probability and
impulse series have equal length (`step` appends to the three
together under the same condition, `clear` empties the three
together, and no other operation touches them). -/
theorem series_lengths_eq {m : Model} (hm : Reachable m) :
    m.time.length = m.prob.length ∧ m.prob.length = m.impulses.length := by
  induction hm with
  | init w h nb bw sb => exact ⟨rfl, rfl⟩
  | @setDim w h m a ih => exact ih
  | @setSide v m a ih => exact ih
  | @setAtomR v m a ih => exact ih
  | @setElectronR v m a ih => exact ih
  | @setSpeed v hv m a ih => exact ih
  | @setShowBins v m a ih => exact ih
  | @setBinsNumber n m a ih => exact ih
  | @setBinIndex b m a ih => exact ih
  | @setPaintTraceOnly v m a ih => exact ih
  | @add x y angle m a ih => exact ih
  | @growOne x y k m a ih => exact ih
  | @shrinkOne m hn a ih => exact ih
  | @clear m a ih => exact ⟨rfl, rfl⟩
  | @step elapsed he m a ih =>
    by_cases hc : appendCond m.time (newTimeFull elapsed m)
    · obtain ⟨ht, hp, hi⟩ := step_series_app elapsed m hc
      rw [ht, hp, hi]
      simp only [List.length_append, List.length_singleton]
      exact ⟨by rw [ih.1], by rw [ih.2]⟩
    · obtain ⟨ht, hp, hi, _⟩ := step_series_skip elapsed m hc
      rw [ht, hp, hi]
      exact ih

/-- Witness for C10 at a concrete reachable state. -/
theorem series_lengths_eq_witness :
    (init 300 300 3 50 false).time.length =
        (init 300 300 3 50 false).prob.length ∧
      (init 300 300 3 50 false).prob.length =
        (init 300 300 3 50 false).impulses.length :=
  series_lengths_eq (Reachable.init 300 300 3 50 false)

/-- Claim C6: during a `step` call a sample is appended to the time
series exactly when the series has fewer than `MAX_HISTORY` entries
and `timeFull` has advanced by at least `measurePeriod` past the
time recorded by the last appended sample (or the series is empty);
consequently the length never exceeds `MAX_HISTORY`, and existing
entries are never evicted or overwritten (the new series is the old
one, possibly extended by one sample at the end). -/
theorem step_sampling (elapsed : ℤ) (m : Model) :
    (appendCond m.time (newTimeFull elapsed m) →
        (step elapsed m).time = m.time ++ [newTimeFull elapsed m / 100] ∧
          (step elapsed m).prob =
            m.prob ++ [(stepAcc elapsed m).timeInside / newTimeFull elapsed m] ∧
          (step elapsed m).impulses =
            m.impulses ++ [(stepAcc elapsed m).impulseSum]) ∧
      (¬ appendCond m.time (newTimeFull elapsed m) →
        (step elapsed m).time = m.time ∧ (step elapsed m).prob = m.prob ∧
          (step elapsed m).impulses = m.impulses) ∧
      (m.time.length ≤ MAX_HISTORY →
        (step elapsed m).time.length ≤ MAX_HISTORY) := by
  refine ⟨fun hc => step_series_app elapsed m hc,
    fun hc => ⟨(step_series_skip elapsed m hc).1,
      (step_series_skip elapsed m hc).2.1,
      (step_series_skip elapsed m hc).2.2.1⟩, fun hlen => ?_⟩
  by_cases hc : appendCond m.time (newTimeFull elapsed m)
  · rw [(step_series_app elapsed m hc).1]
    have hlt : m.time.length < MAX_HISTORY := hc.2
    simp only [List.length_append, List.length_singleton]
    omega
  · rw [(step_series_skip elapsed m hc).1]
    exact hlen

/-- Witness for C6 at a concrete state (empty series, so the
sampling condition holds and one sample is appended). -/
theorem step_sampling_witness :
    appendCond (init 400 400 4 100 false).time
        (newTimeFull 1000 (init 400 400 4 100 false)) ∧
      (step 1000 (init 400 400 4 100 false)).time =
        (init 400 400 4 100 false).time ++
          [newTimeFull 1000 (init 400 400 4 100 false) / 100] := by
  have hc : appendCond (init 400 400 4 100 false).time
      (newTimeFull 1000 (init 400 400 4 100 false)) := by
    constructor
    · exact Or.inl rfl
    · norm_num [init, clear, MAX_HISTORY]
  exact ⟨hc, ((step_sampling 1000 (init 400 400 4 100 false)).1 hc).1⟩

/-- Claim C7 counterexample: with trace-preview mode active, a
`step` call still appends a sample to the time series (the sampling
check in `Model::step` is not guarded by `paintTraceOnly`): from a
fresh instance with trace mode on, the series grows from length 0
to length 1. -/
theorem trace_step_appends_sample :
    (setPaintTraceOnly true (init 400 400 4 100 false)).paintTraceOnly =
        true ∧
      (setPaintTraceOnly true (init 400 400 4 100 false)).time = [] ∧
      (step 1000 (setPaintTraceOnly true (init 400 400 4 100 false))).time =
        [(0 : ℝ)] := by
  refine ⟨rfl, rfl, ?_⟩
  have hc : appendCond
      (setPaintTraceOnly true (init 400 400 4 100 false)).time
      (newTimeFull 1000 (setPaintTraceOnly true (init 400 400 4 100 false))) :=
    ⟨Or.inl rfl, by norm_num [init, clear, setPaintTraceOnly, MAX_HISTORY]⟩
  rw [(step_series_app 1000 _ hc).1]
  norm_num [newTimeFull, setPaintTraceOnly, init, clear]

/-- Claim C7 amended: while trace-preview mode is active, `step`
leaves `timeFull`, `timeInside`, `impulseSum` and the per-bin
residence accumulators unchanged, but the sample-append check still
runs: the time series is either unchanged or extended by one sample
computed from the unchanged accumulators. -/
theorem trace_step_keeps_accumulators (elapsed : ℤ) (m : Model)
    (htr : m.paintTraceOnly = true) :
    (step elapsed m).timeFull = m.timeFull ∧
      (step elapsed m).timeInside = m.timeInside ∧
      (step elapsed m).impulseSum = m.impulseSum ∧
      (step elapsed m).timeInsideAll = m.timeInsideAll ∧
      ((step elapsed m).time = m.time ∨
        (step elapsed m).time = m.time ++ [m.timeFull / 100]) := by
  have hst := step_stats elapsed m
  have hloop := loop_trace m.electronR m.width m.height m.xBegin m.yBegin
    m.side m.atomR m.bin m.binwidth m.num (stepS elapsed m)
    (m.positions.zip m.speedDir)
    ⟨[], m.timeInside, m.timeInsideAll, m.impulseSum⟩
  have hacc1 : (stepAcc elapsed m).timeInside = m.timeInside := by
    unfold stepAcc
    rw [htr]
    exact hloop.1
  have hacc2 : (stepAcc elapsed m).timeInsideAll = m.timeInsideAll := by
    unfold stepAcc
    rw [htr]
    exact hloop.2.1
  have hacc3 : (stepAcc elapsed m).impulseSum = m.impulseSum := by
    unfold stepAcc
    rw [htr]
    exact hloop.2.2
  have htf : newTimeFull elapsed m = m.timeFull := by
    simp [newTimeFull, htr]
  refine ⟨?_, ?_, ?_, ?_, ?_⟩
  · rw [hst.1, htf]
  · rw [hst.2.1, hacc1]
  · rw [hst.2.2.1, hacc3]
  · rw [hst.2.2.2, hacc2]
  · by_cases hc : appendCond m.time (newTimeFull elapsed m)
    · right
      rw [(step_series_app elapsed m hc).1, htf]
    · left
      exact (step_series_skip elapsed m hc).1

/-- Witness for the amended C7 at a concrete trace-mode state. -/
theorem trace_step_keeps_accumulators_witness :
    (step 500 (setPaintTraceOnly true (init 200 200 2 100 false))).timeFull =
        (setPaintTraceOnly true (init 200 200 2 100 false)).timeFull ∧
      (step 500 (setPaintTraceOnly true
          (init 200 200 2 100 false))).impulseSum =
        (setPaintTraceOnly true (init 200 200 2 100 false)).impulseSum :=
  ⟨(trace_step_keeps_accumulators 500
      (setPaintTraceOnly true (init 200 200 2 100 false)) rfl).1,
    (trace_step_keeps_accumulators 500
      (setPaintTraceOnly true (init 200 200 2 100 false)) rfl).2.2.1⟩

/-- Claim C8: in any reachable run with nonnegative elapsed times, a
sample recorded by `step` at a moment when `timeFull > 0` has its
probability value `timeInside/timeFull` in `[0, 1]`. -/
theorem prob_sample_unit (elapsed : ℤ) (he : 0 ≤ elapsed) {m : Model}
    (hm : Reachable m) (v : ℝ)
    (hv : (step elapsed m).prob = m.prob ++ [v])
    (hT : 0 < (step elapsed m).timeFull) :
    0 ≤ v ∧ v ≤ 1 := by
  obtain ⟨-, -, h0, h1⟩ := reachable_inv (Reachable.step elapsed he hm)
  have hst := step_stats elapsed m
  by_cases hc : appendCond m.time (newTimeFull elapsed m)
  · have hp := (step_series_app elapsed m hc).2.1
    rw [hv] at hp
    have hveq : v =
        (stepAcc elapsed m).timeInside / newTimeFull elapsed m := by
      simpa using List.append_cancel_left hp
    have hv2 : v = (step elapsed m).timeInside / (step elapsed m).timeFull := by
      rw [hst.2.1, hst.1]
      exact hveq
    rw [hv2]
    exact ⟨div_nonneg h0 hT.le, (div_le_one hT).mpr h1⟩
  · have hp := (step_series_skip elapsed m hc).2.1
    rw [hv] at hp
    exact absurd hp (by simp)

/-- Witness for C8: a fresh instance stepped once with `Δt = 1000`
records a sample with `timeFull = 100 > 0`. -/
theorem prob_sample_unit_witness :
    0 ≤ (stepAcc 1000 (init 400 400 4 100 false)).timeInside /
          newTimeFull 1000 (init 400 400 4 100 false) ∧
      (stepAcc 1000 (init 400 400 4 100 false)).timeInside /
          newTimeFull 1000 (init 400 400 4 100 false) ≤ 1 := by
  have hc : appendCond (init 400 400 4 100 false).time
      (newTimeFull 1000 (init 400 400 4 100 false)) :=
    ⟨Or.inl rfl, by norm_num [init, clear, MAX_HISTORY]⟩
  refine prob_sample_unit 1000 (by norm_num)
    (Reachable.init 400 400 4 100 false) _
    ((step_series_app 1000 (init 400 400 4 100 false) hc).2.1) ?_
  rw [(step_stats 1000 (init 400 400 4 100 false)).1]
  norm_num [newTimeFull, stepS, init, clear]

/-- Algebra of the selected quadratic root: if the segment endpoint
lies inside (or on) the circle and the segment is nondegenerate,
then the point at parameter `crossT` lies exactly on the circle of
radius `R` around `(xC, yC)`. -/
theorem crossT_on_circle (xC yC x0 y0 dx dy R : ℝ)
    (ha : 0 < dx ^ 2 + dy ^ 2)
    (hf1 : (x0 + dx - xC) ^ 2 + (y0 + dy - yC) ^ 2 ≤ R ^ 2) :
    (x0 + crossT xC yC x0 y0 dx dy R * dx - xC) ^ 2 +
      (y0 + crossT xC yC x0 y0 dx dy R * dy - yC) ^ 2 = R ^ 2 := by
  set a : ℝ := dx ^ 2 + dy ^ 2 with hadef
  set b : ℝ := 2 * ((xC - x0) * dx + (yC - y0) * dy) with hbdef
  set c : ℝ := (xC - x0) ^ 2 + (yC - y0) ^ 2 - R ^ 2 with hcdef
  have hDeq : discrim xC yC x0 y0 dx dy R = b ^ 2 - 4 * a * c := by
    unfold discrim
    rw [hadef, hbdef, hcdef]
    ring
  have hf1' : a - b + c ≤ 0 := by
    have hsame : a - b + c =
        (x0 + dx - xC) ^ 2 + (y0 + dy - yC) ^ 2 - R ^ 2 := by
      rw [hadef, hbdef, hcdef]
      ring
    rw [hsame]
    linarith
  have hD : 0 ≤ discrim xC yC x0 y0 dx dy R := by
    rw [hDeq]
    nlinarith [sq_nonneg (b - 2 * a), mul_pos ha ha]
  set s : ℝ := Real.sqrt (discrim xC yC x0 y0 dx dy R) with hsdef
  have hs2 : s ^ 2 = b ^ 2 - 4 * a * c := by
    rw [hsdef, Real.sq_sqrt hD]
    exact hDeq
  set t : ℝ := crossT xC yC x0 y0 dx dy R with htdef
  have h2a : (2 : ℝ) * a ≠ 0 := by
    have : (0 : ℝ) < 2 * a := by linarith
    exact ne_of_gt this
  have hts : 2 * a * t = b - s := by
    rw [htdef]
    unfold crossT
    rw [← hsdef, ← hadef, ← hbdef]
    field_simp
  have key : (2 * a) ^ 2 * (a * t ^ 2 - b * t + c) = 0 := by
    calc (2 * a) ^ 2 * (a * t ^ 2 - b * t + c)
        = a * (2 * a * t) ^ 2 - (2 * a) * b * (2 * a * t) +
            (2 * a) ^ 2 * c := by ring
      _ = a * (b - s) ^ 2 - (2 * a) * b * (b - s) + (2 * a) ^ 2 * c := by
          rw [hts]
      _ = a * (s ^ 2 - (b ^ 2 - 4 * a * c)) := by ring
      _ = 0 := by rw [hs2]; ring
  have hroot : a * t ^ 2 - b * t + c = 0 :=
    (mul_eq_zero.mp key).resolve_left (pow_ne_zero 2 h2a)
  have expand : (x0 + t * dx - xC) ^ 2 + (y0 + t * dy - yC) ^ 2 =
      a * t ^ 2 - b * t + c + R ^ 2 := by
    rw [hadef, hbdef, hcdef]
    ring
  rw [expand, hroot]
  ring

/-- Claim C3: whenever the Atom Collider detects a contact (the
wall-corrected end position lies within `atomR+electronR` of one of
the 4 lattice candidates) along a nondegenerate step, the crossing
point `(x0 + t*dx, y0 + t*dy)` computed from the selected quadratic
root lies at distance exactly `atomR+electronR` from the matched
atom center. -/
theorem crossing_point_on_atom (xB yB sd : ℤ) (aR eR : ℝ) (p pOld : ℝ × ℝ)
    (hact : (selectAtom xB yB sd aR eR p.1 p.2).2.2 = true)
    (hnd : p ≠ pOld) :
    Real.sqrt
      ((pOld.1 + crossT (selectAtom xB yB sd aR eR p.1 p.2).1
            (selectAtom xB yB sd aR eR p.1 p.2).2.1 pOld.1 pOld.2
            (p.1 - pOld.1) (p.2 - pOld.2) (aR + eR) * (p.1 - pOld.1) -
          (selectAtom xB yB sd aR eR p.1 p.2).1) ^ 2 +
        (pOld.2 + crossT (selectAtom xB yB sd aR eR p.1 p.2).1
            (selectAtom xB yB sd aR eR p.1 p.2).2.1 pOld.1 pOld.2
            (p.1 - pOld.1) (p.2 - pOld.2) (aR + eR) * (p.2 - pOld.2) -
          (selectAtom xB yB sd aR eR p.1 p.2).2.1) ^ 2) = aR + eR := by
  have hhit := selectAtom_hit xB yB sd aR eR p.1 p.2 hact
  rw [hitsAtom_iff] at hhit
  obtain ⟨hR, hle⟩ := hhit
  have hne : p.1 - pOld.1 ≠ 0 ∨ p.2 - pOld.2 ≠ 0 := by
    by_contra hcon
    push_neg at hcon
    exact hnd (Prod.ext (by linarith [hcon.1]) (by linarith [hcon.2]))
  have ha : 0 < (p.1 - pOld.1) ^ 2 + (p.2 - pOld.2) ^ 2 := by
    rcases hne with hne | hne
    · have := lt_of_le_of_ne (sq_nonneg (p.1 - pOld.1))
        (Ne.symm (pow_ne_zero 2 hne))
      nlinarith [sq_nonneg (p.2 - pOld.2)]
    · have := lt_of_le_of_ne (sq_nonneg (p.2 - pOld.2))
        (Ne.symm (pow_ne_zero 2 hne))
      nlinarith [sq_nonneg (p.1 - pOld.1)]
  have hf1 : (pOld.1 + (p.1 - pOld.1) -
        (selectAtom xB yB sd aR eR p.1 p.2).1) ^ 2 +
      (pOld.2 + (p.2 - pOld.2) -
        (selectAtom xB yB sd aR eR p.1 p.2).2.1) ^ 2 ≤ (aR + eR) ^ 2 := by
    have h1 : pOld.1 + (p.1 - pOld.1) = p.1 := by ring
    have h2 : pOld.2 + (p.2 - pOld.2) = p.2 := by ring
    rw [h1, h2]
    exact hle
  have := crossT_on_circle (selectAtom xB yB sd aR eR p.1 p.2).1
    (selectAtom xB yB sd aR eR p.1 p.2).2.1 pOld.1 pOld.2
    (p.1 - pOld.1) (p.2 - pOld.2) (aR + eR) ha hf1
  rw [this]
  exact Real.sqrt_sq hR

/-- Witness for C3: the contact of the segment from `(40,53)` to
`(50,53)` with the atom of combined radius `3+2` centered at
`(50,50)` on the default lattice. -/
theorem crossing_point_on_atom_witness :
    Real.sqrt
      (((40 : ℝ) + crossT (selectAtom 25 25 25 3 2 (50 : ℝ) (53 : ℝ)).1
            (selectAtom 25 25 25 3 2 (50 : ℝ) (53 : ℝ)).2.1 40 53
            ((50 : ℝ) - 40) ((53 : ℝ) - 53) ((3 : ℝ) + 2) *
              ((50 : ℝ) - 40) -
          (selectAtom 25 25 25 3 2 (50 : ℝ) (53 : ℝ)).1) ^ 2 +
        ((53 : ℝ) + crossT (selectAtom 25 25 25 3 2 (50 : ℝ) (53 : ℝ)).1
            (selectAtom 25 25 25 3 2 (50 : ℝ) (53 : ℝ)).2.1 40 53
            ((50 : ℝ) - 40) ((53 : ℝ) - 53) ((3 : ℝ) + 2) *
              ((53 : ℝ) - 53) -
          (selectAtom 25 25 25 3 2 (50 : ℝ) (53 : ℝ)).2.1) ^ 2) =
      (3 : ℝ) + 2 := by
  have hact : (selectAtom 25 25 25 3 2 (50 : ℝ) (53 : ℝ)).2.2 = true := by
    unfold selectAtom
    rw [show latCeil 25 25 (50 : ℝ) = 50 by
      rw [latCeil_eq 25 25 (50 : ℝ) 1 (by norm_num) (by norm_num)]; norm_num]
    rw [show latFloor 25 25 (50 : ℝ) = 50 by
      rw [latFloor_eq 25 25 (50 : ℝ) 1 (by norm_num) (by norm_num)]; norm_num]
    rw [show latCeil 25 25 (53 : ℝ) = 75 by
      rw [latCeil_eq 25 25 (53 : ℝ) 2 (by norm_num) (by norm_num)]; norm_num]
    rw [show latFloor 25 25 (53 : ℝ) = 50 by
      rw [latFloor_eq 25 25 (53 : ℝ) 1 (by norm_num) (by norm_num)]; norm_num]
    norm_num [hitsAtom_iff]
  exact crossing_point_on_atom 25 25 25 3 2 (50, 53) (40, 53) hact
    (by norm_num)

/-- Claim C2 counterexample: for the contact of the segment
`(40,53) → (50,53)` with the atom of combined radius `5` centered at
`(50,50)`, the crossing point is `(46,53)`, the code's outgoing
direction is `0` (it evaluates `beta = atan2` at the end position
`(50,53)`, where the normal is vertical), while the claim's formula
`2*atan2(y-yC, x-xC) - phi - pi` with the normal taken at the
crossing point `(46,53)` gives a nonzero direction. -/
theorem checkAtom_beta_at_endpoint_cex :
    selectAtom 25 25 25 3 2 (50 : ℝ) (53 : ℝ) = (50, 50, true) ∧
      (40 : ℝ) + crossT 50 50 40 53 10 0 5 * 10 = 46 ∧
      (checkAtom 25 25 25 3 2 (50, 53) 0 (40, 53)).phi = 0 ∧
      2 * atan2 ((53 : ℝ) - 50) ((46 : ℝ) - 50) - 0 - Real.pi ≠ 0 := by
  have hsel : selectAtom 25 25 25 3 2 (50 : ℝ) (53 : ℝ) = (50, 50, true) := by
    unfold selectAtom
    rw [show latCeil 25 25 (50 : ℝ) = 50 by
      rw [latCeil_eq 25 25 (50 : ℝ) 1 (by norm_num) (by norm_num)]; norm_num]
    rw [show latFloor 25 25 (50 : ℝ) = 50 by
      rw [latFloor_eq 25 25 (50 : ℝ) 1 (by norm_num) (by norm_num)]; norm_num]
    rw [show latCeil 25 25 (53 : ℝ) = 75 by
      rw [latCeil_eq 25 25 (53 : ℝ) 2 (by norm_num) (by norm_num)]; norm_num]
    rw [show latFloor 25 25 (53 : ℝ) = 50 by
      rw [latFloor_eq 25 25 (53 : ℝ) 1 (by norm_num) (by norm_num)]; norm_num]
    norm_num [hitsAtom_iff]
  have hD : discrim 50 50 40 53 10 0 5 = 6400 := by
    unfold discrim
    norm_num
  have hs : Real.sqrt (discrim 50 50 40 53 10 0 5) = 80 := by
    rw [hD, show (6400 : ℝ) = 80 ^ 2 by norm_num]
    exact Real.sqrt_sq (by norm_num)
  have ht : crossT 50 50 40 53 10 0 5 = 6 / 10 := by
    unfold crossT
    rw [hs]
    norm_num
  refine ⟨hsel, by rw [ht]; norm_num, ?_, ?_⟩
  · unfold checkAtom
    dsimp only
    rw [hsel]
    rw [if_pos rfl]
    dsimp only
    have hb : atan2 ((50, (53 : ℝ)).2 - 50) ((50, (53 : ℝ)).1 - 50) =
        Real.pi / 2 := by
      unfold atan2
      norm_num
    rw [hb]
    ring
  · have hx : ((46 : ℝ) - 50) = -4 := by norm_num
    have hy : ((53 : ℝ) - 50) = 3 := by norm_num
    rw [hx, hy]
    have hatan : atan2 (3 : ℝ) (-4) = -Real.arctan (3 / 4) + Real.pi := by
      unfold atan2
      rw [if_neg (by norm_num), if_pos (by norm_num), if_pos (by norm_num),
        show (3 : ℝ) / (-4) = -(3 / 4) by norm_num, Real.arctan_neg]
    rw [hatan]
    have hlt : Real.arctan (3 / 4) < Real.pi / 2 :=
      Real.arctan_lt_pi_div_two _
    have : (0 : ℝ) < 2 * (-Real.arctan (3 / 4) + Real.pi) - 0 - Real.pi := by
      linarith
    exact ne_of_gt this

/-- Claim C2 amended: whenever the Atom Collider resolves a contact,
the outgoing direction equals `2*beta - phi - pi` where
`beta = atan2(y - yC, x - xC)` is evaluated at the wall-corrected
end position of the tick (not at the crossing point), and the tick's
final position is the crossing point advanced by the remaining
distance `(1 - t) * l` along the new direction, `l` being the length
of the (wall-corrected) segment from the tick's start to its end. -/
theorem checkAtom_reflection (xB yB sd : ℤ) (aR eR : ℝ) (p : ℝ × ℝ)
    (phi : ℝ) (pOld : ℝ × ℝ)
    (hact : (selectAtom xB yB sd aR eR p.1 p.2).2.2 = true) :
    (checkAtom xB yB sd aR eR p phi pOld).phi =
        2 * atan2 (p.2 - (selectAtom xB yB sd aR eR p.1 p.2).2.1)
            (p.1 - (selectAtom xB yB sd aR eR p.1 p.2).1) - phi - Real.pi ∧
      (checkAtom xB yB sd aR eR p phi pOld).p =
        (pOld.1 + crossT (selectAtom xB yB sd aR eR p.1 p.2).1
              (selectAtom xB yB sd aR eR p.1 p.2).2.1 pOld.1 pOld.2
              (p.1 - pOld.1) (p.2 - pOld.2) (aR + eR) * (p.1 - pOld.1) +
            (1 - crossT (selectAtom xB yB sd aR eR p.1 p.2).1
              (selectAtom xB yB sd aR eR p.1 p.2).2.1 pOld.1 pOld.2
              (p.1 - pOld.1) (p.2 - pOld.2) (aR + eR)) *
              Real.sqrt ((p.1 - pOld.1) ^ 2 + (p.2 - pOld.2) ^ 2) *
              Real.cos (2 * atan2
                (p.2 - (selectAtom xB yB sd aR eR p.1 p.2).2.1)
                (p.1 - (selectAtom xB yB sd aR eR p.1 p.2).1) - phi -
                Real.pi),
          pOld.2 + crossT (selectAtom xB yB sd aR eR p.1 p.2).1
              (selectAtom xB yB sd aR eR p.1 p.2).2.1 pOld.1 pOld.2
              (p.1 - pOld.1) (p.2 - pOld.2) (aR + eR) * (p.2 - pOld.2) +
            (1 - crossT (selectAtom xB yB sd aR eR p.1 p.2).1
              (selectAtom xB yB sd aR eR p.1 p.2).2.1 pOld.1 pOld.2
              (p.1 - pOld.1) (p.2 - pOld.2) (aR + eR)) *
              Real.sqrt ((p.1 - pOld.1) ^ 2 + (p.2 - pOld.2) ^ 2) *
              Real.sin (2 * atan2
                (p.2 - (selectAtom xB yB sd aR eR p.1 p.2).2.1)
                (p.1 - (selectAtom xB yB sd aR eR p.1 p.2).1) - phi -
                Real.pi)) := by
  unfold checkAtom
  dsimp only
  rw [if_pos hact]
  exact ⟨rfl, rfl⟩

/-- Witness for the amended C2 at the concrete contact used for the
counterexample. -/
theorem checkAtom_reflection_witness :
    (checkAtom 25 25 25 3 2 ((50 : ℝ), (53 : ℝ)) 0 (40, 53)).phi =
      2 * atan2 ((50, (53 : ℝ)).2 -
          (selectAtom 25 25 25 3 2 ((50, (53 : ℝ)).1) ((50, (53 : ℝ)).2)).2.1)
        ((50, (53 : ℝ)).1 -
          (selectAtom 25 25 25 3 2 ((50, (53 : ℝ)).1) ((50, (53 : ℝ)).2)).1) -
        0 - Real.pi := by
  have hact : (selectAtom 25 25 25 3 2 ((50, (53 : ℝ)).1)
      ((50, (53 : ℝ)).2)).2.2 = true := by
    show (selectAtom 25 25 25 3 2 (50 : ℝ) (53 : ℝ)).2.2 = true
    unfold selectAtom
    rw [show latCeil 25 25 (50 : ℝ) = 50 by
      rw [latCeil_eq 25 25 (50 : ℝ) 1 (by norm_num) (by norm_num)]; norm_num]
    rw [show latFloor 25 25 (50 : ℝ) = 50 by
      rw [latFloor_eq 25 25 (50 : ℝ) 1 (by norm_num) (by norm_num)]; norm_num]
    rw [show latCeil 25 25 (53 : ℝ) = 75 by
      rw [latCeil_eq 25 25 (53 : ℝ) 2 (by norm_num) (by norm_num)]; norm_num]
    rw [show latFloor 25 25 (53 : ℝ) = 50 by
      rw [latFloor_eq 25 25 (53 : ℝ) 1 (by norm_num) (by norm_num)]; norm_num]
    norm_num [hitsAtom_iff]
  exact (checkAtom_reflection 25 25 25 3 2 ((50 : ℝ), (53 : ℝ)) 0 (40, 53)
    hact).1

/-- Claim C4: for every Wall Reflector call and each of the four
walls independently, a positive overshoot `d` of the
radius-inflated coordinate mirrors that coordinate back inside by
`d`, flips the direction (`2π − φ` for a horizontal-wall contact,
`3π − φ` for a vertical-wall contact when it is the only contact),
and contributes exactly `d` to the returned impulse amount (which
`step` adds to `impulseSum` outside trace-preview mode); in
particular a particle whose candidate position overshoots the far
horizontal wall by `s − d > 0` ends exactly `s − d` back inside the
wall and the impulse amount is exactly `s − d`. -/
theorem checkBorders_walls (e : ℝ) (w h : ℤ) (p : ℝ × ℝ) (phi : ℝ)
    (hw : 2 * e ≤ (w : ℝ)) (hh : 2 * e ≤ (h : ℝ)) :
    (p.2 + e - (h : ℝ) > 0 →
        (checkBorders e w h p phi).p.2 =
          (h : ℝ) - e - (p.2 + e - (h : ℝ))) ∧
      (p.1 + e - (w : ℝ) > 0 →
        (checkBorders e w h p phi).p.1 =
          (w : ℝ) - e - (p.1 + e - (w : ℝ))) ∧
      (p.2 < e → (checkBorders e w h p phi).p.2 = e + (e - p.2)) ∧
      (p.1 < e → (checkBorders e w h p phi).p.1 = e + (e - p.1)) ∧
      (checkBorders e w h p phi).addImpulse =
        (if p.2 - e - (h : ℝ) + 2 * e > 0 then p.2 + e - (h : ℝ) else 0) +
          (if p.1 - e - (w : ℝ) + 2 * e > 0 then p.1 + e - (w : ℝ) else 0) +
          (if p.2 - e < 0 then e - p.2 else 0) +
          (if p.1 - e < 0 then e - p.1 else 0) ∧
      (p.2 + e - (h : ℝ) > 0 → ¬(p.1 + e - (w : ℝ) > 0) → ¬(p.1 < e) →
        (checkBorders e w h p phi).phi = 2 * Real.pi - phi) ∧
      (p.1 + e - (w : ℝ) > 0 → ¬(p.2 + e - (h : ℝ) > 0) → ¬(p.2 < e) →
        (checkBorders e w h p phi).phi = 3 * Real.pi - phi) ∧
      (p.2 < e → ¬(p.1 + e - (w : ℝ) > 0) → ¬(p.1 < e) →
        (checkBorders e w h p phi).phi = 2 * Real.pi - phi) ∧
      (p.1 < e → ¬(p.2 + e - (h : ℝ) > 0) → ¬(p.2 < e) →
        (checkBorders e w h p phi).phi = 3 * Real.pi - phi) ∧
      (∀ (mm : Model) (el : ℤ), mm.paintTraceOnly = false →
        (step el mm).impulseSum =
          mm.impulseSum +
            ((mm.positions.zip mm.speedDir).map fun P =>
              (moveParticle mm.electronR mm.width mm.height mm.xBegin
                mm.yBegin mm.side mm.atomR (stepS el mm) P).2).sum) ∧
      (∀ d s : ℝ, 0 < d → d < s →
        (checkBorders e w h (p.1, (h : ℝ) - e - d + s) phi).p.2 =
            ((h : ℝ) - e) - (s - d) ∧
          (¬(p.1 + e - (w : ℝ) > 0) → ¬(p.1 < e) →
            (checkBorders e w h (p.1, (h : ℝ) - e - d + s) phi).addImpulse =
              s - d)) := by
  refine ⟨?_, ?_, ?_, ?_, ?_, ?_, ?_, ?_, ?_, ?_, ?_⟩
  · intro h1
    unfold checkBorders
    dsimp only
    split_ifs <;> dsimp only <;> linarith
  · intro h1
    unfold checkBorders
    dsimp only
    split_ifs <;> dsimp only <;> linarith
  · intro h1
    unfold checkBorders
    dsimp only
    split_ifs <;> dsimp only <;> linarith
  · intro h1
    unfold checkBorders
    dsimp only
    split_ifs <;> dsimp only <;> linarith
  · unfold checkBorders
    dsimp only
    split_ifs <;> dsimp only <;> linarith
  · intro h1 h2 h3
    unfold checkBorders
    dsimp only
    rw [if_pos (show p.2 - e - (h : ℝ) + 2 * e > 0 by linarith)]
    rw [if_neg (show ¬(p.1 - e - (w : ℝ) + 2 * e > 0) by
      intro hc; exact h2 (by linarith))]
    rw [if_neg (show ¬(p.2 - e < 0) by intro hc; linarith)]
    rw [if_neg (show ¬(p.1 - e < 0) by intro hc; exact h3 (by linarith))]
  · intro h1 h2 h3
    unfold checkBorders
    dsimp only
    rw [if_neg (show ¬(p.2 - e - (h : ℝ) + 2 * e > 0) by
      intro hc; exact h2 (by linarith))]
    rw [if_pos (show p.1 - e - (w : ℝ) + 2 * e > 0 by linarith)]
    rw [if_neg (show ¬(p.2 - e < 0) by intro hc; exact h3 (by linarith))]
    rw [if_neg (show ¬(p.1 - e < 0) by intro hc; linarith)]
  · intro h1 h2 h3
    unfold checkBorders
    dsimp only
    rw [if_neg (show ¬(p.2 - e - (h : ℝ) + 2 * e > 0) by
      intro hc; linarith)]
    rw [if_neg (show ¬(p.1 - e - (w : ℝ) + 2 * e > 0) by
      intro hc; exact h2 (by linarith))]
    rw [if_pos (show p.2 - e < 0 by linarith)]
    rw [if_neg (show ¬(p.1 - e < 0) by intro hc; exact h3 (by linarith))]
  · intro h1 h2 h3
    unfold checkBorders
    dsimp only
    rw [if_neg (show ¬(p.2 - e - (h : ℝ) + 2 * e > 0) by
      intro hc; exact h2 (by linarith))]
    rw [if_neg (show ¬(p.1 - e - (w : ℝ) + 2 * e > 0) by
      intro hc; linarith)]
    rw [if_neg (show ¬(p.2 - e < 0) by intro hc; exact h3 (by linarith))]
    rw [if_pos (show p.1 - e < 0 by linarith)]
  · intro mm el htr
    rw [(step_stats el mm).2.2.1]
    unfold stepAcc
    rw [htr]
    exact loop_impulse mm.electronR mm.width mm.height mm.xBegin mm.yBegin
      mm.side mm.atomR mm.bin mm.binwidth mm.num (stepS el mm)
      (mm.positions.zip mm.speedDir)
      ⟨[], mm.timeInside, mm.timeInsideAll, mm.impulseSum⟩
  · intro d s hd hds
    constructor
    · unfold checkBorders
      dsimp only
      split_ifs <;> dsimp only <;> linarith
    · intro hx1 hx2
      unfold checkBorders
      dsimp only
      split_ifs <;> dsimp only <;> linarith

/-- Witness for C4: a particle overshooting the far vertical wall of
a 400-by-400 box by 7 is mirrored to `x = 391` and contributes
impulse 7. -/
theorem checkBorders_walls_witness :
    (checkBorders 2 400 400 ((405 : ℝ), (200 : ℝ)) 0).p.1 = 391 ∧
      (checkBorders 2 400 400 ((405 : ℝ), (200 : ℝ)) 0).addImpulse = 7 := by
  have hth := checkBorders_walls 2 400 400 ((405 : ℝ), (200 : ℝ)) 0
    (by norm_num) (by norm_num)
  constructor
  · rw [hth.2.1 (by norm_num)]
    norm_num
  · rw [hth.2.2.2.2.1]
    norm_num

/-- Claim C5: `step` computes `s = speed*elapsed/1000`, forms each
particle's candidate end position `start + s*(cos phi, sin phi)`,
applies the Wall Reflector then the Atom Collider in that fixed
order, and stores the results; in Scenario A (box 400x400 with the
default `side=25`, `atomR=5`, `electronR=2`, `speed=100`, one
particle at `(10,10)` with `phi=0`, no wall or atom contact) one
step with `elapsed = 1000` ends at `x = 110`. -/
theorem step_order_and_scenarioA :
    (∀ (elapsed : ℤ) (m : Model),
        stepS elapsed m = m.speed * (elapsed : ℝ) / 1000 ∧
          (step elapsed m).positions =
            (m.positions.zip m.speedDir).map (fun P =>
              (checkAtom m.xBegin m.yBegin m.side m.atomR m.electronR
                (checkBorders m.electronR m.width m.height
                  (P.1.1 + Real.cos P.2 * stepS elapsed m,
                    P.1.2 + Real.sin P.2 * stepS elapsed m) P.2).p
                (checkBorders m.electronR m.width m.height
                  (P.1.1 + Real.cos P.2 * stepS elapsed m,
                    P.1.2 + Real.sin P.2 * stepS elapsed m) P.2).phi
                P.1).p) ∧
          (step elapsed m).speedDir =
            (m.positions.zip m.speedDir).map (fun P =>
              (checkAtom m.xBegin m.yBegin m.side m.atomR m.electronR
                (checkBorders m.electronR m.width m.height
                  (P.1.1 + Real.cos P.2 * stepS elapsed m,
                    P.1.2 + Real.sin P.2 * stepS elapsed m) P.2).p
                (checkBorders m.electronR m.width m.height
                  (P.1.1 + Real.cos P.2 * stepS elapsed m,
                    P.1.2 + Real.sin P.2 * stepS elapsed m) P.2).phi
                P.1).phi)) ∧
      (step 1000 (add 10 10 0 (setDim 400 400
          (init 0 0 0 0 false)))).positions = [((110 : ℝ), (10 : ℝ))] := by
  constructor
  · intro elapsed m
    exact ⟨rfl, step_positions elapsed m, step_speedDir elapsed m⟩
  · have hcb : checkBorders 2 400 400 ((110 : ℝ), (10 : ℝ)) 0 =
        ⟨((110 : ℝ), (10 : ℝ)), 0, 0⟩ := by
      unfold checkBorders
      dsimp only
      rw [if_neg (show ¬((10 : ℝ) - 2 - ((400 : ℤ) : ℝ) + 2 * 2 > 0) by
        push_cast; norm_num)]
      rw [if_neg (show ¬((110 : ℝ) - 2 - ((400 : ℤ) : ℝ) + 2 * 2 > 0) by
        push_cast; norm_num)]
      rw [if_neg (show ¬((10 : ℝ) - 2 < 0) by norm_num)]
      rw [if_neg (show ¬((110 : ℝ) - 2 < 0) by norm_num)]
    have hsel : selectAtom 25 25 25 5 2 (110 : ℝ) (10 : ℝ) =
        (1, 1, false) := by
      unfold selectAtom
      rw [show latCeil 25 25 (110 : ℝ) = 125 by
        rw [latCeil_eq 25 25 (110 : ℝ) 4 (by norm_num) (by norm_num)]
        norm_num]
      rw [show latFloor 25 25 (110 : ℝ) = 100 by
        rw [latFloor_eq 25 25 (110 : ℝ) 3 (by norm_num) (by norm_num)]
        norm_num]
      rw [show latCeil 25 25 (10 : ℝ) = 25 by
        rw [latCeil_eq 25 25 (10 : ℝ) 0 (by norm_num) (by norm_num)]
        norm_num]
      rw [show latFloor 25 25 (10 : ℝ) = 0 by
        rw [latFloor_eq 25 25 (10 : ℝ) (-1) (by norm_num) (by norm_num)]
        norm_num]
      norm_num [hitsAtom_iff]
    have hca : checkAtom 25 25 25 5 2 ((110 : ℝ), (10 : ℝ)) 0
        ((10 : ℝ), (10 : ℝ)) = ⟨((110 : ℝ), (10 : ℝ)), 0⟩ := by
      unfold checkAtom
      dsimp only
      rw [hsel]
      rw [if_neg (show ¬(((1 : ℝ), (1 : ℝ), false).2.2 = true) by norm_num)]
    rw [step_positions]
    have hzip : ((add 10 10 0 (setDim 400 400
          (init 0 0 0 0 false))).positions.zip
        (add 10 10 0 (setDim 400 400 (init 0 0 0 0 false))).speedDir) =
        [(((((10 : ℤ) : ℝ)), (((10 : ℤ) : ℝ))), (0 : ℝ))] := rfl
    rw [hzip]
    simp only [List.map_cons, List.map_nil]
    have hxB : (add 10 10 0 (setDim 400 400
        (init 0 0 0 0 false))).xBegin = 25 := by
      show beginOf 400 25 = 25
      norm_num [beginOf]
    have hsS : stepS 1000 (add 10 10 0 (setDim 400 400
        (init 0 0 0 0 false))) = 100 := by
      show (100 : ℝ) * ((1000 : ℤ) : ℝ) / 1000 = 100
      push_cast
      norm_num
    unfold moveParticle
    dsimp only
    rw [hxB, hsS]
    show [(checkAtom 25 25 25 5 2
        (checkBorders 2 400 400
          (((10 : ℤ) : ℝ) + Real.cos 0 * 100,
            ((10 : ℤ) : ℝ) + Real.sin 0 * 100) 0).p
        (checkBorders 2 400 400
          (((10 : ℤ) : ℝ) + Real.cos 0 * 100,
            ((10 : ℤ) : ℝ) + Real.sin 0 * 100) 0).phi
        (((10 : ℤ) : ℝ), ((10 : ℤ) : ℝ))).p] = [((110 : ℝ), (10 : ℝ))]
    rw [Real.cos_zero, Real.sin_zero]
    rw [show (((10 : ℤ) : ℝ) + 1 * 100, ((10 : ℤ) : ℝ) + 0 * 100) =
      ((110 : ℝ), (10 : ℝ)) by push_cast; norm_num]
    rw [show ((((10 : ℤ) : ℝ)), (((10 : ℤ) : ℝ))) = ((10 : ℝ), (10 : ℝ)) by
      push_cast; norm_num]
    rw [hcb]
    dsimp only
    rw [hca]

/-- Wall reflection keeps a coordinate inside `[0, width]` /
`[0, height]` provided the overshoot does not exceed the inner box
size (so the single mirror reflection cannot overshoot the opposite
wall). -/
theorem checkBorders_in_box (e : ℝ) (w h : ℤ) (p : ℝ × ℝ) (phi : ℝ)
    (he : 0 ≤ e) (hw : 2 * e ≤ (w : ℝ)) (hh : 2 * e ≤ (h : ℝ))
    (hx1 : 3 * e - (w : ℝ) ≤ p.1) (hx2 : p.1 ≤ 2 * (w : ℝ) - 3 * e)
    (hy1 : 3 * e - (h : ℝ) ≤ p.2) (hy2 : p.2 ≤ 2 * (h : ℝ) - 3 * e) :
    (0 ≤ (checkBorders e w h p phi).p.1 ∧
        (checkBorders e w h p phi).p.1 ≤ (w : ℝ)) ∧
      0 ≤ (checkBorders e w h p phi).p.2 ∧
        (checkBorders e w h p phi).p.2 ≤ (h : ℝ) := by
  unfold checkBorders
  dsimp only
  split_ifs <;> dsimp only <;>
    exact ⟨⟨by linarith, by linarith⟩, by linarith, by linarith⟩

/-- Claim C1 amended: a stored position stays inside
`[0,width] × [0,height]` for a step whose candidate position
overshoots each wall by at most the inner box size
(`width - 2*electronR` horizontally, `height - 2*electronR`
vertically) and for which the Atom Collider does not activate on the
wall-corrected position; without these provisos the invariant fails
(see the counterexample). -/
theorem particle_stays_in_box (e : ℝ) (w h xB yB sd : ℤ) (aR : ℝ)
    (p : ℝ × ℝ) (phi : ℝ) (pOld : ℝ × ℝ)
    (he : 0 ≤ e) (hw : 2 * e ≤ (w : ℝ)) (hh : 2 * e ≤ (h : ℝ))
    (hx1 : 3 * e - (w : ℝ) ≤ p.1) (hx2 : p.1 ≤ 2 * (w : ℝ) - 3 * e)
    (hy1 : 3 * e - (h : ℝ) ≤ p.2) (hy2 : p.2 ≤ 2 * (h : ℝ) - 3 * e)
    (hnoatom : (selectAtom xB yB sd aR e
        (checkBorders e w h p phi).p.1
        (checkBorders e w h p phi).p.2).2.2 = false) :
    (0 ≤ (checkAtom xB yB sd aR e (checkBorders e w h p phi).p
          (checkBorders e w h p phi).phi pOld).p.1 ∧
        (checkAtom xB yB sd aR e (checkBorders e w h p phi).p
          (checkBorders e w h p phi).phi pOld).p.1 ≤ (w : ℝ)) ∧
      0 ≤ (checkAtom xB yB sd aR e (checkBorders e w h p phi).p
          (checkBorders e w h p phi).phi pOld).p.2 ∧
        (checkAtom xB yB sd aR e (checkBorders e w h p phi).p
          (checkBorders e w h p phi).phi pOld).p.2 ≤ (h : ℝ) := by
  have hq : (checkAtom xB yB sd aR e (checkBorders e w h p phi).p
      (checkBorders e w h p phi).phi pOld).p =
      (checkBorders e w h p phi).p := by
    unfold checkAtom
    dsimp only
    rw [hnoatom]
    rw [if_neg (by norm_num)]
  rw [hq]
  exact checkBorders_in_box e w h p phi he hw hh hx1 hx2 hy1 hy2

/-- Witness for the amended C1: an overshoot of `7` past the far
vertical wall of a 400-by-400 box is mirrored back inside, and the
lattice test at the corrected position `(391,200)` finds no atom. -/
theorem particle_stays_in_box_witness :
    (0 ≤ (checkAtom 25 25 25 5 2
          (checkBorders 2 400 400 ((405 : ℝ), (200 : ℝ)) 0).p
          (checkBorders 2 400 400 ((405 : ℝ), (200 : ℝ)) 0).phi
          ((10 : ℝ), (10 : ℝ))).p.1 ∧
        (checkAtom 25 25 25 5 2
          (checkBorders 2 400 400 ((405 : ℝ), (200 : ℝ)) 0).p
          (checkBorders 2 400 400 ((405 : ℝ), (200 : ℝ)) 0).phi
          ((10 : ℝ), (10 : ℝ))).p.1 ≤ ((400 : ℤ) : ℝ)) ∧
      0 ≤ (checkAtom 25 25 25 5 2
          (checkBorders 2 400 400 ((405 : ℝ), (200 : ℝ)) 0).p
          (checkBorders 2 400 400 ((405 : ℝ), (200 : ℝ)) 0).phi
          ((10 : ℝ), (10 : ℝ))).p.2 ∧
        (checkAtom 25 25 25 5 2
          (checkBorders 2 400 400 ((405 : ℝ), (200 : ℝ)) 0).p
          (checkBorders 2 400 400 ((405 : ℝ), (200 : ℝ)) 0).phi
          ((10 : ℝ), (10 : ℝ))).p.2 ≤ ((400 : ℤ) : ℝ) := by
  have hcb2 : checkBorders 2 400 400 ((405 : ℝ), (200 : ℝ)) 0 =
      ⟨((391 : ℝ), (200 : ℝ)), 3 * Real.pi, 7⟩ := by
    unfold checkBorders
    dsimp only
    rw [if_neg (show ¬((200 : ℝ) - 2 - ((400 : ℤ) : ℝ) + 2 * 2 > 0) by
      push_cast; norm_num)]
    rw [if_pos (show (405 : ℝ) - 2 - ((400 : ℤ) : ℝ) + 2 * 2 > 0 by
      push_cast; norm_num)]
    rw [if_neg (show ¬((200 : ℝ) - 2 < 0) by norm_num)]
    rw [if_neg (show ¬((405 : ℝ) - 2 < 0) by norm_num)]
    norm_num [BorderResult.mk.injEq, Prod.mk.injEq]
  have hsel2 : selectAtom 25 25 25 5 2 (391 : ℝ) (200 : ℝ) =
      (1, 1, false) := by
    unfold selectAtom
    rw [show latCeil 25 25 (391 : ℝ) = 400 by
      rw [latCeil_eq 25 25 (391 : ℝ) 15 (by norm_num) (by norm_num)]
      norm_num]
    rw [show latFloor 25 25 (391 : ℝ) = 375 by
      rw [latFloor_eq 25 25 (391 : ℝ) 14 (by norm_num) (by norm_num)]
      norm_num]
    rw [show latCeil 25 25 (200 : ℝ) = 200 by
      rw [latCeil_eq 25 25 (200 : ℝ) 7 (by norm_num) (by norm_num)]
      norm_num]
    rw [show latFloor 25 25 (200 : ℝ) = 200 by
      rw [latFloor_eq 25 25 (200 : ℝ) 7 (by norm_num) (by norm_num)]
      norm_num]
    norm_num [hitsAtom_iff]
  refine particle_stays_in_box 2 400 400 25 25 25 5
      ((405 : ℝ), (200 : ℝ)) 0 ((10 : ℝ), (10 : ℝ))
      (by norm_num) (by push_cast; norm_num) (by push_cast; norm_num)
      (by push_cast; norm_num) (by push_cast; norm_num)
      (by push_cast; norm_num) (by push_cast; norm_num) ?_
  rw [hcb2]
  dsimp only
  rw [hsel2]

/-- Claim C1 counterexample: from a reachable state (box 400x400,
one particle at `(10,10)` moving along `+x`), a single `step` with
`elapsed = 10000` (step length 1000) drives the stored position to
`x = -214`, outside `[0, width]`: the single mirror reflection of
`checkBorders` cannot cope with an overshoot larger than the box. -/
theorem position_escapes_box_cex :
    Reachable (step 10000 (add 10 10 0 (setDim 400 400
        (init 0 0 0 0 false)))) ∧
      (step 10000 (add 10 10 0 (setDim 400 400
        (init 0 0 0 0 false)))).width = 400 ∧
      (step 10000 (add 10 10 0 (setDim 400 400
        (init 0 0 0 0 false)))).positions = [((-214 : ℝ), (10 : ℝ))] ∧
      ((-214 : ℝ) < 0) := by
  refine ⟨Reachable.step 10000 (by norm_num)
    (Reachable.add 10 10 0 (Reachable.setDim 400 400
      (Reachable.init 0 0 0 0 false))), rfl, ?_, by norm_num⟩
  have hcb3 : checkBorders 2 400 400 ((1010 : ℝ), (10 : ℝ)) 0 =
      ⟨((-214 : ℝ), (10 : ℝ)), 3 * Real.pi, 612⟩ := by
    unfold checkBorders
    dsimp only
    rw [if_neg (show ¬((10 : ℝ) - 2 - ((400 : ℤ) : ℝ) + 2 * 2 > 0) by
      push_cast; norm_num)]
    rw [if_pos (show (1010 : ℝ) - 2 - ((400 : ℤ) : ℝ) + 2 * 2 > 0 by
      push_cast; norm_num)]
    rw [if_neg (show ¬((10 : ℝ) - 2 < 0) by norm_num)]
    rw [if_neg (show ¬((1010 : ℝ) - 2 < 0) by norm_num)]
    norm_num [BorderResult.mk.injEq, Prod.mk.injEq]
  have hsel3 : selectAtom 25 25 25 5 2 (-214 : ℝ) (10 : ℝ) =
      (1, 1, false) := by
    unfold selectAtom
    rw [show latCeil 25 25 (-214 : ℝ) = -200 by
      rw [latCeil_eq 25 25 (-214 : ℝ) (-9) (by norm_num) (by norm_num)]
      norm_num]
    rw [show latFloor 25 25 (-214 : ℝ) = -225 by
      rw [latFloor_eq 25 25 (-214 : ℝ) (-10) (by norm_num) (by norm_num)]
      norm_num]
    rw [show latCeil 25 25 (10 : ℝ) = 25 by
      rw [latCeil_eq 25 25 (10 : ℝ) 0 (by norm_num) (by norm_num)]
      norm_num]
    rw [show latFloor 25 25 (10 : ℝ) = 0 by
      rw [latFloor_eq 25 25 (10 : ℝ) (-1) (by norm_num) (by norm_num)]
      norm_num]
    norm_num [hitsAtom_iff]
  have hca3 : checkAtom 25 25 25 5 2 ((-214 : ℝ), (10 : ℝ)) (3 * Real.pi)
      ((10 : ℝ), (10 : ℝ)) = ⟨((-214 : ℝ), (10 : ℝ)), 3 * Real.pi⟩ := by
    unfold checkAtom
    dsimp only
    rw [hsel3]
    rw [if_neg (by norm_num)]
  rw [step_positions]
  have hzip3 : ((add 10 10 0 (setDim 400 400
        (init 0 0 0 0 false))).positions.zip
      (add 10 10 0 (setDim 400 400 (init 0 0 0 0 false))).speedDir) =
      [(((((10 : ℤ) : ℝ)), (((10 : ℤ) : ℝ))), (0 : ℝ))] := rfl
  rw [hzip3]
  simp only [List.map_cons, List.map_nil]
  have hsS3 : stepS 10000 (add 10 10 0 (setDim 400 400
      (init 0 0 0 0 false))) = 1000 := by
    show (100 : ℝ) * ((10000 : ℤ) : ℝ) / 1000 = 1000
    push_cast
    norm_num
  unfold moveParticle
  dsimp only
  rw [hsS3]
  show [(checkAtom 25 25 25 5 2
      (checkBorders 2 400 400
        (((10 : ℤ) : ℝ) + Real.cos 0 * 1000,
          ((10 : ℤ) : ℝ) + Real.sin 0 * 1000) 0).p
      (checkBorders 2 400 400
        (((10 : ℤ) : ℝ) + Real.cos 0 * 1000,
          ((10 : ℤ) : ℝ) + Real.sin 0 * 1000) 0).phi
      (((10 : ℤ) : ℝ), ((10 : ℤ) : ℝ))).p] = [((-214 : ℝ), (10 : ℝ))]
  rw [Real.cos_zero, Real.sin_zero]
  rw [show (((10 : ℤ) : ℝ) + 1 * 1000, ((10 : ℤ) : ℝ) + 0 * 1000) =
    ((1010 : ℝ), (10 : ℝ)) by push_cast; norm_num]
  rw [show ((((10 : ℤ) : ℝ)), (((10 : ℤ) : ℝ))) = ((10 : ℝ), (10 : ℝ)) by
    push_cast; norm_num]
  rw [hcb3]
  dsimp only
  rw [hca3]

end Lorentz
